import Mathlib

set_option maxHeartbeats 1000000

/-!
Verification development for the model-proxy server: a shallow embedding of
the stream frame translator, the retry controller, the model identity
resolver, the request normalizer, the embeddings validators and the
synthetic model catalog, together with theorems settling the specification
claims about them.

Conventions of the embedding: decoded text is `List Char`; JavaScript string
falsiness is emptiness; `JSON.parse` composed with delta-field extraction is
abstracted as a function parameter `parse : List Char → Option Delta`
(returning `none` exactly when the JavaScript code would throw while
parsing or extracting); the randomness source `Math.random` is abstracted
as a sequence of rational draws in `[0, 1)`.
-/

namespace OllamaBridge

/-- Whitespace set recognised by this model of JavaScript `String.trim`. -/
def isWs (c : Char) : Bool :=
  c = ' ' || c = '\t' || c = '\n' || c = '\r'

/-- Model of JavaScript `String.trim` on decoded text. -/
def jsTrim (l : List Char) : List Char :=
  ((l.dropWhile isWs).reverse.dropWhile isWs).reverse

/-- Model of `message.replace` with the anchored pattern removing one
leading occurrence of the six characters `data: `. -/
def stripData (l : List Char) : List Char :=
  if l.take 6 = ("data: ".toList) then l.drop 6 else l

/-- Result of `JSON.parse` plus extraction of the delta fields
(`choices[0].delta.role`, `choices[0].delta.content` defaulted to the empty
string, `choices[0].finish_reason`, and the upstream `id`), with the
JavaScript falsy-default operators already applied. -/
structure Delta where
  idTag : Option String
  role : Option String
  content : String
  finish : Option String
deriving DecidableEq

/-- One outbound write of the translator, up to the synthetic id/timestamp
fields fabricated at emission time. `chunk` is an OpenAI-surface
`chat.completion.chunk` write; `sentinel` is the verbatim
`data: [DONE]` write; `localDelta` is a local-runner newline-delimited
object with `done:false`; `finalChunk` and `localFinal` are the respective
end-of-stream terminal writes. -/
inductive Frame where
  | chunk (idTag : Option String) (role : Option String) (content : String) (finish : Option String)
  | sentinel
  | localDelta (content : String)
  | finalChunk
  | localFinal
deriving DecidableEq

/-- What processing one complete line does: skip it, emit one frame, or
throw (a JavaScript exception escaping to the per-chunk catch). -/
inductive LineRes where
  | skip
  | emit (f : Frame)
  | fail
deriving DecidableEq

/-- Per-line processing of the OpenAI-surface stream handler: skip blank
lines, forward the end-of-stream sentinel verbatim, emit one
`chat.completion.chunk` per parsed delta, and throw on a parse failure. -/
def openaiLineEval (parse : List Char → Option Delta) (line : List Char) : LineRes :=
  if jsTrim line = [] then .skip
  else
    if jsTrim (stripData line) = ("[DONE]".toList) then .emit .sentinel
    else
      match parse (stripData line) with
      | some d => .emit (.chunk d.idTag d.role d.content d.finish)
      | none => .fail

/-- Per-line processing of the local-runner-surface stream handler: skip
blank lines, consume the end-of-stream sentinel silently, emit one
`done:false` object per parsed delta, and throw on a parse or
field-extraction failure. -/
def ollamaLineEval (parse : List Char → Option Delta) (line : List Char) : LineRes :=
  if jsTrim line = [] then .skip
  else
    if jsTrim (stripData line) = ("[DONE]".toList) then .skip
    else
      match parse (stripData line) with
      | some d => .emit (.localDelta d.content)
      | none => .fail

/-- Model of `buffer.indexOf of a newline` plus the two slices: the first
complete line (newline excluded) and the rest of the buffer. -/
def lineSplit : List Char → Option (List Char × List Char)
  | [] => none
  | c :: cs =>
    if c = '\n' then some ([], cs)
    else
      match lineSplit cs with
      | some (l, r) => some (c :: l, r)
      | none => none

/-- Outcome of draining all complete lines currently in the buffer:
the frames written, the remaining buffer, and whether an exception
escaped to the per-chunk catch (aborting the drain loop early). -/
structure DrainOut where
  frames : List Frame
  buffer : List Char
  aborted : Bool
deriving DecidableEq

/-- Fuel-indexed drain loop over the buffer; each iteration consumes one
newline, so any fuel at least the buffer length is exact. -/
def drainF (ev : List Char → LineRes) : Nat → List Char → DrainOut
  | 0, buf => ⟨[], buf, false⟩
  | fuel + 1, buf =>
    match lineSplit buf with
    | none => ⟨[], buf, false⟩
    | some (l, r) =>
      match ev l with
      | .skip => drainF ev fuel r
      | .emit f =>
        ⟨f :: (drainF ev fuel r).frames, (drainF ev fuel r).buffer, (drainF ev fuel r).aborted⟩
      | .fail => ⟨[], r, true⟩

/-- The while loop of the stream data handler: repeatedly extract the
first complete line of the buffer and process it, stopping at the first
incomplete line, or early at a thrown exception (the line that threw has
already been sliced off the buffer). -/
def drain (ev : List Char → LineRes) (buf : List Char) : DrainOut :=
  drainF ev buf.length buf

/-- Fuel-indexed list of the complete (newline-terminated) lines of a
text, excluding the trailing unterminated segment. -/
def completeLinesF : Nat → List Char → List (List Char)
  | 0, _ => []
  | fuel + 1, s =>
    match lineSplit s with
    | none => []
    | some (l, r) => l :: completeLinesF fuel r

/-- The complete (newline-terminated) lines of a text, excluding the
trailing unterminated segment. -/
def completeLines (s : List Char) : List (List Char) :=
  completeLinesF s.length s

/-- The frame, if any, that processing one line emits. -/
def emitOf (ev : List Char → LineRes) (l : List Char) : Option Frame :=
  match ev l with
  | .emit f => some f
  | _ => none

/-- State carried across chunk deliveries of one stream: the persistent
text buffer and the frames written so far. -/
structure TState where
  buffer : List Char
  frames : List Frame
deriving DecidableEq

/-- The data-event handler: append the decoded chunk to the buffer, then
drain all complete lines. -/
def feedChunk (ev : List Char → LineRes) (s : TState) (c : List Char) : TState :=
  ⟨(drain ev (s.buffer ++ c)).buffer, s.frames ++ (drain ev (s.buffer ++ c)).frames⟩

/-- Feed a whole sequence of chunk deliveries from the initial empty state. -/
def runChunks (ev : List Char → LineRes) (cs : List (List Char)) : TState :=
  cs.foldl (feedChunk ev) ⟨[], []⟩

/-- Everything written on the outbound connection over one streaming
session, and whether the connection was ended. -/
structure SessionOut where
  writes : List Frame
  ended : Bool
deriving DecidableEq

/-- One OpenAI-surface streaming session: all data-event writes, then the
end-event writes (final chunk then closing sentinel) and the close. -/
def sessionOpenai (parse : List Char → Option Delta) (cs : List (List Char)) : SessionOut :=
  ⟨(runChunks (openaiLineEval parse) cs).frames ++ [Frame.finalChunk, Frame.sentinel], true⟩

/-- One local-runner-surface streaming session: all data-event writes,
then the end-event terminal write and the close. -/
def sessionOllama (parse : List Char → Option Delta) (cs : List (List Char)) : SessionOut :=
  ⟨(runChunks (ollamaLineEval parse) cs).frames ++ [Frame.localFinal], true⟩

/-- Recogniser of the OpenAI-surface terminal frame. -/
def isOTerminal : Frame → Bool
  | .finalChunk => true
  | _ => false

/-- Recogniser of the local-runner-surface terminal frame. -/
def isLTerminal : Frame → Bool
  | .localFinal => true
  | _ => false

/-- Deterministic fields of the OpenAI-surface terminal chunk written by
the end handler (the id and created fields are synthetic and omitted). -/
structure OpenAIFinalDelta where
  objectKind : String
  role : Option String
  content : String
  finish_reason : String
  matched_stop : Nat
  usage : Option Nat
deriving DecidableEq

/-- The terminal `chat.completion.chunk` of the OpenAI-surface end
handler. -/
def mkOpenAIFinal : OpenAIFinalDelta :=
  ⟨"chat.completion.chunk", none, "", "stop", 128009, none⟩

/-- The local-runner terminal object written by the end handler; the six
duration/usage counters are the fabricated random draws, passed in
already floored. -/
structure OllamaFinalPayload where
  model : String
  role : String
  content : String
  done : Bool
  done_reason : String
  total_duration : Nat
  load_duration : Nat
  prompt_eval_count : Nat
  prompt_eval_duration : Nat
  eval_count : Nat
  eval_duration : Nat
deriving DecidableEq

/-- The terminal payload of the local-runner end handler: empty assistant
delta, `done:true`, `done_reason:"stop"`, fabricated counters. -/
def mkOllamaFinal (model : String) (td ld pec ped ec ed : Nat) : OllamaFinalPayload :=
  ⟨model, "assistant", "", true, "stop", td, ld, pec + 10, ped, ec + 100, ed⟩

/-- A concrete stand-in for the abstract parse function, used to
instantiate the stream theorems on closed inputs: the line `good` parses
to a delta with content `G`; everything else fails to parse. -/
def toyParse (l : List Char) : Option Delta :=
  if l = ("good".toList) then some ⟨none, none, "G", none⟩ else none

/-- Outcome of one upstream attempt as seen by the retry loop: either the
attempt succeeds, or it throws with `error.response?.status` as payload
(`none` models an error carrying no HTTP status). -/
inductive AttemptOut where
  | ok
  | err (status : Option Nat)
deriving DecidableEq

/-- Trace of one run of the retry loop: what was thrown out of it (if
anything), how many attempts were made, and the delays awaited between
attempts, in milliseconds. -/
structure RetryResult where
  thrown : Option (Option Nat)
  attempts : Nat
  delays : List Nat
deriving DecidableEq

/-- The retry while-loop of the chat-completions handler: attempt the
upstream call; on a thrown 429 with retries remaining, wait 5000 ms and
loop with the retry counter incremented; on any other thrown error, or a
429 with no retries remaining, rethrow; on success, break. -/
def chatRetryGo (att : Nat → AttemptOut) (maxRetries : Nat) : Nat → Nat → RetryResult
  | _, 0 => ⟨none, 0, []⟩
  | retryCount, fuel + 1 =>
    if retryCount < maxRetries then
      match att retryCount with
      | .ok => ⟨none, 1, []⟩
      | .err s =>
        if s = some 429 ∧ retryCount < maxRetries - 1 then
          ⟨(chatRetryGo att maxRetries (retryCount + 1) fuel).thrown,
           (chatRetryGo att maxRetries (retryCount + 1) fuel).attempts + 1,
           5000 :: (chatRetryGo att maxRetries (retryCount + 1) fuel).delays⟩
        else ⟨some s, 1, []⟩
    else ⟨none, 0, []⟩

/-- The chat-completions retry controller: three attempts total, starting
at retry count zero. -/
def chatCompletionsRetry (att : Nat → AttemptOut) : RetryResult :=
  chatRetryGo att 3 0 3

/-- A concrete upstream schedule: rate-limited on the first two attempts,
successful on the third. -/
def att429 : Nat → AttemptOut :=
  fun i => if i < 2 then .err (some 429) else .ok

/-- The all-zero random draw source, used to instantiate the catalog
theorem on a closed input. -/
def zeroDraws : Nat → Nat → ℚ :=
  fun _ _ => 0

/-- The model identity resolver of the configuration module: if the
process-wide override is configured (non-empty), return it; otherwise
return the argument unchanged. -/
def mapModel (defaultModel : String) (name : String) : String :=
  if defaultModel ≠ "" then defaultModel else name

/-- JavaScript `a || b` on an optional string `a` (absent or falsy-empty
falls back to `b`). -/
def jsOrStr (a : Option String) (b : String) : String :=
  match a with
  | some s => if s = "" then b else s
  | none => b

/-- The model resolution performed by every handler:
`mapModel` applied to the requested model with the configured default as
the falsy fallback. -/
def resolveModel (defaultModel : String) (requested : Option String) : String :=
  mapModel defaultModel (jsOrStr requested defaultModel)

/-- Whether the needle occurs as a contiguous run inside the haystack
(model of JavaScript `String.includes`). -/
def containsSub (n : List Char) : List Char → Bool
  | [] => decide (n = [])
  | c :: rest => decide ((c :: rest).take n.length = n) || containsSub n rest

/-- ASCII model of JavaScript `toLowerCase` on one character. -/
def lowerChar (c : Char) : Char :=
  if 'A' ≤ c ∧ c ≤ 'Z' then Char.ofNat (c.toNat + 32) else c

/-- The upstream style selector: derived once from the configured host,
content-generation style exactly when the lowercased host contains the
content-generation domain, OpenAI style otherwise. -/
def getApiStyle (host : String) : String :=
  if containsSub ("generativelanguage.googleapis.com".toList) (host.toList.map lowerChar)
  then "gemini" else "openai"

/-- Whether a handler streams: the caller-requested flag, downgraded to a
synchronous call when the upstream style is content-generation. -/
def wantsStream (stream : Bool) (apiStyle : String) : Bool :=
  stream && !(apiStyle == "gemini")

/-- Inbound message content: either a plain string or a structured value,
the latter carried opaquely (its JSON text is produced by the abstract
serializer parameter). -/
inductive MsgContent where
  | str (s : String)
  | structured (v : String)
deriving DecidableEq

/-- One inbound chat message. -/
structure InMsg where
  role : String
  content : MsgContent
deriving DecidableEq

/-- The text placed in the single part of a remapped entry: the content
itself when it is a string, its JSON serialization otherwise. -/
def contentText (stringify : String → String) : MsgContent → String
  | .str s => s
  | .structured v => stringify v

/-- One text part of a content-generation request entry. -/
structure GPart where
  text : String
deriving DecidableEq

/-- One entry of the content-generation `contents` sequence. -/
structure GContent where
  role : String
  parts : List GPart
deriving DecidableEq

/-- Remapping of one inbound message into a content-generation entry:
the role is kept except that `system` is coerced to `user`, and the
single text part carries the content's text. -/
def geminiContentOf (stringify : String → String) (m : InMsg) : GContent :=
  ⟨if m.role = "system" then "user" else m.role, [⟨contentText stringify m.content⟩]⟩

/-- Remapping of the whole message sequence. -/
def geminiContents (stringify : String → String) (messages : List InMsg) : List GContent :=
  messages.map (geminiContentOf stringify)

/-- The upstream payload of a content-generation chat call. -/
structure GeminiPayload where
  contents : List GContent
  maxOutputTokens : Nat
deriving DecidableEq

/-- The content-generation branch of the chat request builder: remaps the
messages, applies the falsy-defaulted token bound, and ignores the
caller's stream flag entirely (the call is a single synchronous request). -/
def geminiChatRequest (stringify : String → String) (messages : List InMsg)
    (_stream : Bool) (maxTokens : Option Nat) : GeminiPayload :=
  ⟨geminiContents stringify messages,
   match maxTokens with
   | some n => if n = 0 then 2048 else n
   | none => 2048⟩

/-- The `input` field of an embeddings request: a string or an array of
strings (an array is always truthy in JavaScript, even when empty). -/
inductive EmbedInput where
  | str (s : String)
  | arr (l : List String)
deriving DecidableEq

/-- JavaScript truthiness of an optional embeddings input. -/
def inputTruthy : Option EmbedInput → Bool
  | none => false
  | some (.str s) => !(s == "")
  | some (.arr _) => true

/-- JavaScript truthiness of an optional string field. -/
def strTruthy : Option String → Bool
  | none => false
  | some s => !(s == "")

/-- JavaScript `a || b` on optional embeddings inputs. -/
def jsOrInput (a b : Option EmbedInput) : Option EmbedInput :=
  if inputTruthy a then a else b

/-- Outcome of an embeddings handler before any response transformation:
either a synchronous 4xx rejection carrying the structured error type, or
an upstream embeddings call with the forwarded model and input. -/
inductive EmbedResult where
  | badRequest (status : Nat) (errType : String)
  | upstream (model : String) (input : EmbedInput)
deriving DecidableEq

/-- The OpenAI-surface embeddings handler: reject with 400 and
`invalid_request_error` when `model` is falsy, then when `input` is
falsy, and otherwise make the upstream call with both forwarded. -/
def v1Embeddings (model : Option String) (input : Option EmbedInput) : EmbedResult :=
  if !(strTruthy model) then .badRequest 400 "invalid_request_error"
  else if !(inputTruthy input) then .badRequest 400 "invalid_request_error"
  else .upstream ((jsOrStr model "")) (match input with
    | some i => i
    | none => .str "")

/-- Outcome of a local-runner embeddings handler. -/
inductive LocalEmbedResult where
  | badRequest (missing : String)
  | upstream (model : String) (text : EmbedInput)
deriving DecidableEq

/-- The local-runner `/api/embeddings` handler: default the model to the
literal `all-minilm` before validation, take the text to embed as
`input || prompt` with an empty-string fallback, check the (now always
truthy) model, check the text, and otherwise call upstream. -/
def apiEmbeddings (model : Option String) (prompt input : Option EmbedInput) : LocalEmbedResult :=
  let m := jsOrStr model "all-minilm"
  let text := jsOrInput input prompt
  if m = "" then .badRequest "model"
  else if !(inputTruthy text) then .badRequest "text"
  else .upstream m (match text with
    | some t => t
    | none => .str "")

/-- The local-runner `/api/embed` handler: same defaulting, but with no
model check at all. -/
def apiEmbed (model : Option String) (prompt input : Option EmbedInput) : LocalEmbedResult :=
  let m := jsOrStr model "all-minilm"
  let text := jsOrInput input prompt
  if !(inputTruthy text) then .badRequest "text"
  else .upstream m (match text with
    | some t => t
    | none => .str "")

/-- A calendar instant split as the model of a JavaScript `Date`: the
year, and the remaining within-year position; `setFullYear` changes only
the year component. -/
structure JsDate where
  year : Int
  sub : Nat
deriving DecidableEq

/-- Details block of a synthesized catalog descriptor. -/
structure ModelDetails where
  parent_model : String
  format : String
  family : String
  families : List String
  parameter_size : String
  quantization_level : String
deriving DecidableEq

/-- One synthesized catalog descriptor. -/
structure ModelObject where
  name : String
  model : String
  modified_at : JsDate
  size : Int
  digest : List Char
  details : ModelDetails
deriving DecidableEq

/-- Lowercase hexadecimal digit character of a value below 16 (model of
`Number.toString` with radix 16 on such values). -/
def hexDigit (n : Nat) : Char :=
  if n < 10 then Char.ofNat (48 + n) else Char.ofNat (87 + n)

/-- Whether a character is a lowercase hexadecimal digit. -/
def isHexChar (c : Char) : Bool :=
  ('0' ≤ c && c ≤ '9') || ('a' ≤ c && c ≤ 'f')

/-- Synthesis of one catalog descriptor from the model name, the current
instant, and a sequence `r` of random draws in `[0,1)`: draws 0 to 63
build the digest, draw 64 the size, draw 65 the quantization level. -/
def createModelObject (r : Nat → ℚ) (now : JsDate) (name : String) : ModelObject :=
  let parts := name.splitOn ":"
  let family := parts.headD ""
  let ps := (parts.drop 1).headD ""
  { name := name
    model := name
    modified_at := ⟨now.year + 1, now.sub⟩
    size := ⌊r 64 * 500000000⌋ + 100000000
    digest := (List.range 64).map (fun i => hexDigit (⌊r i * 16⌋).toNat)
    details :=
      { parent_model := ""
        format := "gguf"
        family := family
        families := [family]
        parameter_size := if containsSub ("b".toList) ps.toList then ps.toUpper else ps
        quantization_level := if r 65 > 1 / 2 then "Q4_K_M" else "F16" } }

/-- One catalog read: a fresh descriptor is synthesized for every
configured model name from that read's own random draws and instant;
nothing is cached across reads. -/
def getModelList (supported : List String) (r : Nat → Nat → ℚ) (now : JsDate) :
    List ModelObject :=
  supported.enum.map (fun p => createModelObject (r p.1) now p.2)

/-- Extracting the rest of the buffer past the first newline strictly
shrinks it. -/
theorem lineSplit_some_length {buf l r : List Char} (h : lineSplit buf = some (l, r)) :
    r.length < buf.length := by
  induction buf generalizing l r with
  | nil => simp [lineSplit] at h
  | cons c cs ih =>
    rw [lineSplit] at h
    by_cases hc : c = '\n'
    · simp only [hc, if_pos rfl, Option.some.injEq, Prod.mk.injEq] at h
      obtain ⟨-, rfl⟩ := h
      simp
    · simp only [hc, if_neg, if_false] at h
      cases hls : lineSplit cs with
      | none => rw [hls] at h; simp at h
      | some p =>
        obtain ⟨l', r'⟩ := p
        rw [hls] at h
        simp only [Option.some.injEq, Prod.mk.injEq] at h
        obtain ⟨-, rfl⟩ := h
        have := ih hls
        simp only [List.length_cons]
        omega

/-- Splitting off the first line commutes with appending more text after
the buffer. -/
theorem lineSplit_append {buf l r : List Char} (h : lineSplit buf = some (l, r))
    (b : List Char) : lineSplit (buf ++ b) = some (l, r ++ b) := by
  induction buf generalizing l r with
  | nil => simp [lineSplit] at h
  | cons c cs ih =>
    rw [lineSplit] at h
    rw [List.cons_append, lineSplit]
    by_cases hc : c = '\n'
    · rw [if_pos hc] at h
      rw [if_pos hc]
      cases h
      rfl
    · rw [if_neg hc] at h
      rw [if_neg hc]
      cases hls : lineSplit cs with
      | none => rw [hls] at h; cases h
      | some p =>
        obtain ⟨l', r'⟩ := p
        rw [hls] at h
        cases h
        rw [ih hls]

/-- One unfolding of the drain loop: no complete line in the buffer. -/
theorem drainF_succ_none {buf : List Char} (ev : List Char → LineRes) (fuel : Nat)
    (h : lineSplit buf = none) : drainF ev (fuel + 1) buf = ⟨[], buf, false⟩ := by
  simp [drainF, h]

/-- One unfolding of the drain loop: the first line is skipped. -/
theorem drainF_succ_skip {buf l r : List Char} (ev : List Char → LineRes) (fuel : Nat)
    (h : lineSplit buf = some (l, r)) (hev : ev l = .skip) :
    drainF ev (fuel + 1) buf = drainF ev fuel r := by
  simp [drainF, h, hev]

/-- One unfolding of the drain loop: the first line emits a frame. -/
theorem drainF_succ_emit {buf l r : List Char} {f : Frame} (ev : List Char → LineRes)
    (fuel : Nat) (h : lineSplit buf = some (l, r)) (hev : ev l = .emit f) :
    drainF ev (fuel + 1) buf =
      ⟨f :: (drainF ev fuel r).frames, (drainF ev fuel r).buffer,
       (drainF ev fuel r).aborted⟩ := by
  simp [drainF, h, hev]

/-- One unfolding of the drain loop: processing the first line throws. -/
theorem drainF_succ_fail {buf l r : List Char} (ev : List Char → LineRes) (fuel : Nat)
    (h : lineSplit buf = some (l, r)) (hev : ev l = .fail) :
    drainF ev (fuel + 1) buf = ⟨[], r, true⟩ := by
  simp [drainF, h, hev]

/-- The drain loop computes the same answer under any sufficient fuel. -/
theorem drainF_congr (ev : List Char → LineRes) :
    ∀ (n m : Nat) (buf : List Char), buf.length ≤ n → buf.length ≤ m →
      drainF ev n buf = drainF ev m buf := by
  intro n
  induction n with
  | zero =>
    intro m buf hn _
    have hb : buf = [] := List.length_eq_zero.mp (Nat.le_zero.mp hn)
    subst hb
    cases m with
    | zero => rfl
    | succ m => rw [drainF_succ_none ev m (show lineSplit [] = none from rfl)]; rfl
  | succ n ih =>
    intro m buf hn hm
    cases m with
    | zero =>
      have hb : buf = [] := List.length_eq_zero.mp (Nat.le_zero.mp hm)
      subst hb
      rw [drainF_succ_none ev n (show lineSplit [] = none from rfl)]
      rfl
    | succ m =>
      cases hls : lineSplit buf with
      | none => rw [drainF_succ_none ev n hls, drainF_succ_none ev m hls]
      | some p =>
        obtain ⟨l, r⟩ := p
        have hr := lineSplit_some_length hls
        have hrn : r.length ≤ n := by omega
        have hrm : r.length ≤ m := by omega
        cases hev : ev l with
        | skip =>
          rw [drainF_succ_skip ev n hls hev, drainF_succ_skip ev m hls hev]
          exact ih m r hrn hrm
        | emit f =>
          rw [drainF_succ_emit ev n hls hev, drainF_succ_emit ev m hls hev,
            ih m r hrn hrm]
        | fail =>
          rw [drainF_succ_fail ev n hls hev, drainF_succ_fail ev m hls hev]

/-- Shape of the drain on a buffer holding no complete line. -/
theorem drain_none {buf : List Char} (ev : List Char → LineRes)
    (h : lineSplit buf = none) : drain ev buf = ⟨[], buf, false⟩ := by
  cases buf with
  | nil => rfl
  | cons c cs => exact drainF_succ_none ev cs.length h

/-- Shape of the drain when the first complete line is skipped. -/
theorem drain_skip {buf l r : List Char} (ev : List Char → LineRes)
    (h : lineSplit buf = some (l, r)) (hev : ev l = .skip) :
    drain ev buf = drain ev r := by
  have hr := lineSplit_some_length h
  cases buf with
  | nil => simp [lineSplit] at h
  | cons c cs =>
    show drainF ev (c :: cs).length (c :: cs) = drain ev r
    rw [List.length_cons, drainF_succ_skip ev cs.length h hev]
    exact drainF_congr ev cs.length r.length r (by simp at hr; omega) le_rfl

/-- Shape of the drain when the first complete line emits a frame. -/
theorem drain_emit {buf l r : List Char} {f : Frame} (ev : List Char → LineRes)
    (h : lineSplit buf = some (l, r)) (hev : ev l = .emit f) :
    drain ev buf =
      ⟨f :: (drain ev r).frames, (drain ev r).buffer, (drain ev r).aborted⟩ := by
  have hr := lineSplit_some_length h
  cases buf with
  | nil => simp [lineSplit] at h
  | cons c cs =>
    show drainF ev (c :: cs).length (c :: cs) = _
    rw [List.length_cons, drainF_succ_emit ev cs.length h hev,
      drainF_congr ev cs.length r.length r (by simp at hr; omega) le_rfl]
    rfl

/-- Shape of the drain when processing the first complete line throws:
the loop stops with the buffer already advanced past that line. -/
theorem drain_fail {buf l r : List Char} (ev : List Char → LineRes)
    (h : lineSplit buf = some (l, r)) (hev : ev l = .fail) :
    drain ev buf = ⟨[], r, true⟩ := by
  cases buf with
  | nil => simp [lineSplit] at h
  | cons c cs =>
    show drainF ev (c :: cs).length (c :: cs) = _
    rw [List.length_cons, drainF_succ_fail ev cs.length h hev]

/-- One unfolding of the complete-lines recursion: no newline. -/
theorem completeLinesF_succ_none {s : List Char} (fuel : Nat)
    (h : lineSplit s = none) : completeLinesF (fuel + 1) s = [] := by
  simp [completeLinesF, h]

/-- One unfolding of the complete-lines recursion: a line splits off. -/
theorem completeLinesF_succ_some {s l r : List Char} (fuel : Nat)
    (h : lineSplit s = some (l, r)) :
    completeLinesF (fuel + 1) s = l :: completeLinesF fuel r := by
  simp [completeLinesF, h]

/-- The complete-lines list computes the same under any sufficient fuel. -/
theorem completeLinesF_congr :
    ∀ (n m : Nat) (s : List Char), s.length ≤ n → s.length ≤ m →
      completeLinesF n s = completeLinesF m s := by
  intro n
  induction n with
  | zero =>
    intro m s hn _
    have hb : s = [] := List.length_eq_zero.mp (Nat.le_zero.mp hn)
    subst hb
    cases m with
    | zero => rfl
    | succ m =>
      rw [completeLinesF_succ_none m (show lineSplit [] = none from rfl)]
      rfl
  | succ n ih =>
    intro m s hn hm
    cases m with
    | zero =>
      have hb : s = [] := List.length_eq_zero.mp (Nat.le_zero.mp hm)
      subst hb
      rw [completeLinesF_succ_none n (show lineSplit [] = none from rfl)]
      rfl
    | succ m =>
      cases hls : lineSplit s with
      | none => rw [completeLinesF_succ_none n hls, completeLinesF_succ_none m hls]
      | some p =>
        obtain ⟨l, r⟩ := p
        have hr := lineSplit_some_length hls
        rw [completeLinesF_succ_some n hls, completeLinesF_succ_some m hls,
          ih m r (by omega) (by omega)]

/-- Shape of the complete-lines list on a buffer with no newline. -/
theorem completeLines_none {s : List Char} (h : lineSplit s = none) :
    completeLines s = [] := by
  cases s with
  | nil => rfl
  | cons c cs => exact completeLinesF_succ_none cs.length h

/-- Shape of the complete-lines list when a first line splits off. -/
theorem completeLines_some {s l r : List Char} (h : lineSplit s = some (l, r)) :
    completeLines s = l :: completeLines r := by
  have hr := lineSplit_some_length h
  cases s with
  | nil => simp [lineSplit] at h
  | cons c cs =>
    show completeLinesF (c :: cs).length (c :: cs) = _
    rw [List.length_cons, completeLinesF_succ_some cs.length h,
      completeLinesF_congr cs.length r.length r (by simp at hr; omega) le_rfl]
    rfl

/-- Draining a buffer extended by more text, when the drain of the first
part does not throw, equals draining the first part and then draining its
residue together with the extension. -/
theorem drain_append (ev : List Char → LineRes) :
    ∀ (n : Nat) (a : List Char), a.length ≤ n → (drain ev a).aborted = false →
      ∀ (b : List Char),
        drain ev (a ++ b) =
          ⟨(drain ev a).frames ++ (drain ev ((drain ev a).buffer ++ b)).frames,
           (drain ev ((drain ev a).buffer ++ b)).buffer,
           (drain ev ((drain ev a).buffer ++ b)).aborted⟩ := by
  intro n
  induction n with
  | zero =>
    intro a ha _ b
    have hb : a = [] := List.length_eq_zero.mp (Nat.le_zero.mp ha)
    subst hb
    simp only [List.nil_append]
    rfl
  | succ n ih =>
    intro a ha hab b
    cases hls : lineSplit a with
    | none =>
      rw [drain_none ev hls]
      simp only [List.nil_append]
    | some p =>
      obtain ⟨l, r⟩ := p
      have hr := lineSplit_some_length hls
      have hls2 := lineSplit_append hls b
      cases hev : ev l with
      | skip =>
        rw [drain_skip ev hls hev] at hab ⊢
        rw [drain_skip ev hls2 hev]
        exact ih r (by omega) hab b
      | emit f =>
        rw [drain_emit ev hls hev] at hab ⊢
        rw [drain_emit ev hls2 hev]
        simp only at hab
        rw [ih r (by omega) hab b]
        simp
      | fail =>
        rw [drain_fail ev hls hev] at hab
        simp at hab

/-- Draining a buffer extended by more text, when the drain of the first
part throws, stops at the same line: the frames already written stay, and
the extension is queued in the residual buffer. -/
theorem drain_append_abort (ev : List Char → LineRes) :
    ∀ (n : Nat) (a : List Char), a.length ≤ n → (drain ev a).aborted = true →
      ∀ (b : List Char),
        drain ev (a ++ b) =
          ⟨(drain ev a).frames, (drain ev a).buffer ++ b, true⟩ := by
  intro n
  induction n with
  | zero =>
    intro a ha hab b
    have hb : a = [] := List.length_eq_zero.mp (Nat.le_zero.mp ha)
    subst hb
    simp [drain_none ev (show lineSplit [] = none from rfl)] at hab
  | succ n ih =>
    intro a ha hab b
    cases hls : lineSplit a with
    | none =>
      rw [drain_none ev hls] at hab
      simp at hab
    | some p =>
      obtain ⟨l, r⟩ := p
      have hr := lineSplit_some_length hls
      have hls2 := lineSplit_append hls b
      cases hev : ev l with
      | skip =>
        rw [drain_skip ev hls hev] at hab ⊢
        rw [drain_skip ev hls2 hev]
        exact ih r (by omega) hab b
      | emit f =>
        rw [drain_emit ev hls hev] at hab ⊢
        rw [drain_emit ev hls2 hev]
        simp only at hab
        rw [ih r (by omega) hab b]
      | fail =>
        rw [drain_fail ev hls hev]
        rw [drain_fail ev hls2 hev]

/-- When no complete line of the buffer throws, the drain finishes the
whole buffer and writes exactly the frames its complete lines emit, in
order. -/
theorem drain_good (ev : List Char → LineRes) :
    ∀ (n : Nat) (s : List Char), s.length ≤ n →
      (∀ l ∈ completeLines s, ev l ≠ .fail) →
      (drain ev s).aborted = false ∧
        (drain ev s).frames = (completeLines s).filterMap (emitOf ev) := by
  intro n
  induction n with
  | zero =>
    intro s hs _
    have hb : s = [] := List.length_eq_zero.mp (Nat.le_zero.mp hs)
    subst hb
    exact ⟨rfl, rfl⟩
  | succ n ih =>
    intro s hs hgood
    cases hls : lineSplit s with
    | none =>
      rw [drain_none ev hls, completeLines_none hls]
      exact ⟨rfl, rfl⟩
    | some p =>
      obtain ⟨l, r⟩ := p
      have hr := lineSplit_some_length hls
      rw [completeLines_some hls] at hgood
      have hgr : ∀ l2 ∈ completeLines r, ev l2 ≠ .fail :=
        fun l2 hl2 => hgood l2 (List.mem_cons_of_mem l hl2)
      have hgl : ev l ≠ .fail := hgood l (List.mem_cons_self l _)
      cases hev : ev l with
      | skip =>
        rw [drain_skip ev hls hev, completeLines_some hls]
        have := ih r (by omega) hgr
        refine ⟨this.1, ?_⟩
        rw [List.filterMap_cons]
        have hemit : emitOf ev l = none := by simp [emitOf, hev]
        rw [hemit, this.2]
      | emit f =>
        rw [drain_emit ev hls hev, completeLines_some hls]
        have := ih r (by omega) hgr
        refine ⟨this.1, ?_⟩
        rw [List.filterMap_cons]
        have hemit : emitOf ev l = some f := by simp [emitOf, hev]
        rw [hemit, this.2]
      | fail => exact absurd hev hgl

/-- Folding further chunk deliveries from the state left by a drained
prefix computes the drain of the whole concatenation, provided the whole
concatenation drains without throwing. -/
theorem runChunks_from (ev : List Char → LineRes) (cs : List (List Char)) :
    ∀ (a : List Char), (drain ev (a ++ cs.flatten)).aborted = false →
      List.foldl (feedChunk ev) ⟨(drain ev a).buffer, (drain ev a).frames⟩ cs =
        ⟨(drain ev (a ++ cs.flatten)).buffer, (drain ev (a ++ cs.flatten)).frames⟩ := by
  induction cs with
  | nil =>
    intro a _
    simp
  | cons c cs ih =>
    intro a hab
    have hassoc : a ++ (c :: cs).flatten = (a ++ c) ++ cs.flatten := by
      rw [List.flatten_cons, List.append_assoc]
    rw [hassoc] at hab
    have h1 : (drain ev a).aborted = false := by
      cases h : (drain ev a).aborted with
      | false => rfl
      | true =>
        have habort := drain_append_abort ev a.length a le_rfl h (c ++ cs.flatten)
        rw [← List.append_assoc] at habort
        rw [habort] at hab
        simp at hab
    have h2 := drain_append ev a.length a le_rfl h1 c
    have hstep :
        feedChunk ev ⟨(drain ev a).buffer, (drain ev a).frames⟩ c =
          ⟨(drain ev (a ++ c)).buffer, (drain ev (a ++ c)).frames⟩ := by
      rw [feedChunk]
      rw [h2]
    have h3 : (drain ev ((a ++ c) ++ cs.flatten)).aborted = false := hab
    rw [List.foldl_cons, hstep, ih (a ++ c) h3, hassoc]

/-- When no complete line of the whole delivered text throws, the frames
written over any sequence of chunk deliveries are exactly the frames the
complete lines of the concatenated text emit, in order. -/
theorem runChunks_good (ev : List Char → LineRes) (cs : List (List Char))
    (h : ∀ l ∈ completeLines cs.flatten, ev l ≠ .fail) :
    (runChunks ev cs).frames = (completeLines cs.flatten).filterMap (emitOf ev) := by
  have hg := drain_good ev cs.flatten.length cs.flatten le_rfl h
  have hrun := runChunks_from ev cs [] (by simpa using hg.1)
  have h0 : (⟨[], []⟩ : TState) = ⟨(drain ev []).buffer, (drain ev []).frames⟩ := rfl
  rw [runChunks, h0, hrun]
  simp only [List.nil_append]
  rw [hg.2]

/-- Feeding further chunk deliveries only appends frames: the frames
already written are never revisited, whether or not earlier deliveries
threw while being processed. -/
theorem foldl_frames_mono (ev : List Char → LineRes) :
    ∀ (ds : List (List Char)) (s : TState),
      ∃ t, (List.foldl (feedChunk ev) s ds).frames = s.frames ++ t := by
  intro ds
  induction ds with
  | nil => exact fun s => ⟨[], by simp⟩
  | cons d ds ih =>
    intro s
    obtain ⟨t1, ht1⟩ := ih (feedChunk ev s d)
    exact ⟨(drain ev (s.buffer ++ d)).frames ++ t1, by
      rw [List.foldl_cons, ht1, feedChunk, List.append_assoc]⟩

/-- Every frame written during chunk processing was emitted by the
per-line evaluator on some line. -/
theorem drain_frames_mem (ev : List Char → LineRes) :
    ∀ (n : Nat) (s : List Char), s.length ≤ n →
      ∀ f ∈ (drain ev s).frames, ∃ l, ev l = .emit f := by
  intro n
  induction n with
  | zero =>
    intro s hs f hf
    have hb : s = [] := List.length_eq_zero.mp (Nat.le_zero.mp hs)
    subst hb
    simp [drain_none ev (show lineSplit [] = none from rfl)] at hf
  | succ n ih =>
    intro s hs f hf
    cases hls : lineSplit s with
    | none =>
      rw [drain_none ev hls] at hf
      simp at hf
    | some p =>
      obtain ⟨l, r⟩ := p
      have hr := lineSplit_some_length hls
      cases hev : ev l with
      | skip =>
        rw [drain_skip ev hls hev] at hf
        exact ih r (by omega) f hf
      | emit g =>
        rw [drain_emit ev hls hev] at hf
        simp only at hf
        rcases List.mem_cons.mp hf with hfg | hf2
        · exact ⟨l, by rw [hev, hfg]⟩
        · exact ih r (by omega) f hf2
      | fail =>
        rw [drain_fail ev hls hev] at hf
        simp at hf

/-- Every frame in the final state of a chunk-delivery run was emitted by
the per-line evaluator on some line. -/
theorem runChunks_frames_mem (ev : List Char → LineRes) (cs : List (List Char)) :
    ∀ f ∈ (runChunks ev cs).frames, ∃ l, ev l = .emit f := by
  have hgen : ∀ (ds : List (List Char)) (s : TState),
      (∀ f ∈ s.frames, ∃ l, ev l = .emit f) →
      ∀ f ∈ (List.foldl (feedChunk ev) s ds).frames, ∃ l, ev l = .emit f := by
    intro ds
    induction ds with
    | nil => exact fun s hs => by simpa using hs
    | cons d ds ih =>
      intro s hs f hf
      refine ih (feedChunk ev s d) ?_ f hf
      intro g hg
      rcases List.mem_append.mp hg with hg1 | hg2
      · exact hs g hg1
      · exact drain_frames_mem ev (s.buffer ++ d).length (s.buffer ++ d) le_rfl g hg2
  exact hgen cs ⟨[], []⟩ (by simp)

/-- The OpenAI-surface per-line evaluator never emits a terminal frame:
its emissions are delta chunks or the forwarded sentinel. -/
theorem openai_emit_not_terminal (parse : List Char → Option Delta)
    (l : List Char) (f : Frame) (h : openaiLineEval parse l = .emit f) :
    isOTerminal f = false := by
  rw [openaiLineEval] at h
  split at h
  · cases h
  · split at h
    · cases h
      rfl
    · split at h
      · cases h
        rfl
      · cases h

/-- The local-runner per-line evaluator never emits a terminal frame: its
emissions are `done:false` delta objects. -/
theorem ollama_emit_not_terminal (parse : List Char → Option Delta)
    (l : List Char) (f : Frame) (h : ollamaLineEval parse l = .emit f) :
    isLTerminal f = false := by
  rw [ollamaLineEval] at h
  split at h
  · cases h
  · split at h
    · cases h
    · split at h
      · cases h
        rfl
      · cases h

/-- All characters of a text whose trim is empty are whitespace. -/
theorem jsTrim_all_ws {l : List Char} (h : jsTrim l = []) :
    ∀ c ∈ l, isWs c = true := by
  rw [jsTrim, List.reverse_eq_nil_iff, List.dropWhile_eq_nil_iff] at h
  intro c hc
  have hsplit := List.takeWhile_append_dropWhile (p := isWs) (l := l)
  rw [← hsplit] at hc
  rcases List.mem_append.mp hc with hc1 | hc2
  · exact List.mem_takeWhile_imp hc1
  · exact h c (List.mem_reverse.mpr hc2)

/-- Claim C1: a chat-completions request whose initiating upstream call
fails with HTTP 429 is retried after a fixed 5000 ms delay, with at most
3 attempts in total; success within the bound yields the successful
result with nothing thrown; a 429 on the last permitted attempt, or any
non-429 failure, propagates immediately with no further delay. -/
theorem c1_retry_policy (att : Nat → AttemptOut) :
    (chatCompletionsRetry att).attempts ≤ 3 ∧
    (∀ k, k < 3 → (∀ i, i < k → att i = .err (some 429)) → att k = .ok →
      chatCompletionsRetry att = ⟨none, k + 1, List.replicate k 5000⟩) ∧
    ((∀ i, i < 3 → att i = .err (some 429)) →
      chatCompletionsRetry att = ⟨some (some 429), 3, [5000, 5000]⟩) ∧
    (∀ k s, k < 3 → (∀ i, i < k → att i = .err (some 429)) → att k = .err s →
      s ≠ some 429 →
      chatCompletionsRetry att = ⟨some s, k + 1, List.replicate k 5000⟩) := by
  refine ⟨?_, ?_, ?_, ?_⟩
  · rcases h0 : att 0 with _ | s0
    · simp [chatCompletionsRetry, chatRetryGo, h0]
    · by_cases hs0 : s0 = some 429
      · subst hs0
        rcases h1 : att 1 with _ | s1
        · simp [chatCompletionsRetry, chatRetryGo, h0, h1]
        · by_cases hs1 : s1 = some 429
          · subst hs1
            rcases h2 : att 2 with _ | s2
            · simp [chatCompletionsRetry, chatRetryGo, h0, h1, h2]
            · simp [chatCompletionsRetry, chatRetryGo, h0, h1, h2]
          · simp [chatCompletionsRetry, chatRetryGo, h0, h1, hs1]
      · simp [chatCompletionsRetry, chatRetryGo, h0, hs0]
  · intro k hk hpre hok
    interval_cases k
    · simp [chatCompletionsRetry, chatRetryGo, hok]
    · have h0 := hpre 0 (by omega)
      simp [chatCompletionsRetry, chatRetryGo, h0, hok]
    · have h0 := hpre 0 (by omega)
      have h1 := hpre 1 (by omega)
      simp [chatCompletionsRetry, chatRetryGo, h0, h1, hok]
  · intro hall
    have h0 := hall 0 (by omega)
    have h1 := hall 1 (by omega)
    have h2 := hall 2 (by omega)
    simp [chatCompletionsRetry, chatRetryGo, h0, h1, h2]
  · intro k s hk hpre herr hneq
    interval_cases k
    · simp [chatCompletionsRetry, chatRetryGo, herr, hneq]
    · have h0 := hpre 0 (by omega)
      simp [chatCompletionsRetry, chatRetryGo, h0, herr, hneq]
    · have h0 := hpre 0 (by omega)
      have h1 := hpre 1 (by omega)
      simp [chatCompletionsRetry, chatRetryGo, h0, h1, herr, hneq]

/-- Witness for C1: two rate-limited attempts then a success yield the
successful result after exactly three attempts and two 5000 ms delays. -/
theorem c1_retry_policy_witness :
    (2 : Nat) < 3 ∧ (∀ i, i < 2 → att429 i = .err (some 429)) ∧ att429 2 = .ok ∧
    chatCompletionsRetry att429 = ⟨none, 3, List.replicate 2 5000⟩ :=
  ⟨by decide, by decide, by decide,
    (c1_retry_policy att429).2.1 2 (by decide) (by decide) (by decide)⟩

/-- Claim C3: a complete line whose content after stripping an optional
SSE data prefix is the literal end-of-stream sentinel is forwarded to an
OpenAI-surface client verbatim, and consumed silently on the local-runner
surface. -/
theorem c3_sentinel_surfaces (parseO parseL : List Char → Option Delta)
    (line : List Char) (h : jsTrim (stripData line) = ("[DONE]".toList)) :
    openaiLineEval parseO line = .emit .sentinel ∧
    ollamaLineEval parseL line = .skip := by
  have hnil : ¬ jsTrim line = [] := by
    intro hnil
    have hall := jsTrim_all_ws hnil
    rw [stripData] at h
    revert h
    split
    · intro h
      rename_i htake
      have hdmem : 'd' ∈ line := by
        refine List.take_subset 6 line ?_
        rw [htake]
        decide
      have := hall 'd' hdmem
      simp [isWs] at this
    · intro h
      rw [hnil] at h
      exact absurd h (by decide)
  constructor
  · rw [openaiLineEval, if_neg hnil, if_pos h]
  · rw [ollamaLineEval, if_neg hnil, if_pos h]

/-- Witness for C3: the concrete line carrying the prefixed sentinel. -/
theorem c3_sentinel_surfaces_witness :
    jsTrim (stripData ("data: [DONE]".toList)) = ("[DONE]".toList) ∧
    openaiLineEval toyParse ("data: [DONE]".toList) = .emit .sentinel ∧
    ollamaLineEval toyParse ("data: [DONE]".toList) = .skip :=
  ⟨by decide,
    (c3_sentinel_surfaces toyParse toyParse ("data: [DONE]".toList) (by decide)).1,
    (c3_sentinel_surfaces toyParse toyParse ("data: [DONE]".toList) (by decide)).2⟩

/-- Claim C6: the model identity resolver returns the configured override
whenever one is set, regardless of the requested name; otherwise it
returns the requested name unchanged, falling back to the configured
default only when the requested name is absent; it is a total pure
function with no error outcome. -/
theorem c6_model_resolver (dm : String) (req : Option String) :
    (dm ≠ "" → resolveModel dm req = dm) ∧
    (dm = "" → ∀ s, resolveModel dm (some s) = s) ∧
    resolveModel dm none = dm := by
  refine ⟨?_, ?_, ?_⟩
  · intro h
    rw [resolveModel, mapModel, if_pos h]
  · intro h s
    subst h
    rw [resolveModel, mapModel, if_neg (by simp), jsOrStr]
    by_cases hs : s = "" <;> simp [hs]
  · rw [resolveModel, jsOrStr, mapModel]
    by_cases h : dm = "" <;> simp [h]

/-- Witness for C6: the override wins when configured; the requested name
passes through otherwise; the default fills an absent request. -/
theorem c6_model_resolver_witness :
    ("forced" : String) ≠ "" ∧ resolveModel "forced" (some "asked") = "forced" ∧
    resolveModel "" (some "asked") = "asked" ∧ resolveModel "" none = "" :=
  ⟨by decide, (c6_model_resolver "forced" (some "asked")).1 (by decide),
    (c6_model_resolver "" (some "asked")).2.1 rfl "asked",
    (c6_model_resolver "" none).2.2⟩

/-- Claim C2: for a fixed upstream text whose complete lines all process
without throwing, every way of splitting the same text into chunk
deliveries produces the identical frame sequence, on both surfaces; and
that sequence is exactly one frame per emitting complete line, in order
(so a line whose terminator arrives in a later chunk yields exactly its
one frame). -/
theorem c2_split_invariance (parseO parseL : List Char → Option Delta)
    (cs1 cs2 : List (List Char)) (hjoin : cs1.flatten = cs2.flatten)
    (hgoodO : ∀ l ∈ completeLines cs1.flatten, openaiLineEval parseO l ≠ .fail)
    (hgoodL : ∀ l ∈ completeLines cs1.flatten, ollamaLineEval parseL l ≠ .fail) :
    (runChunks (openaiLineEval parseO) cs1).frames =
      (runChunks (openaiLineEval parseO) cs2).frames ∧
    (runChunks (ollamaLineEval parseL) cs1).frames =
      (runChunks (ollamaLineEval parseL) cs2).frames ∧
    (runChunks (openaiLineEval parseO) cs1).frames =
      (completeLines cs1.flatten).filterMap (emitOf (openaiLineEval parseO)) ∧
    (runChunks (ollamaLineEval parseL) cs1).frames =
      (completeLines cs1.flatten).filterMap (emitOf (ollamaLineEval parseL)) := by
  have hgoodO2 : ∀ l ∈ completeLines cs2.flatten, openaiLineEval parseO l ≠ .fail := by
    rw [← hjoin]
    exact hgoodO
  have hgoodL2 : ∀ l ∈ completeLines cs2.flatten, ollamaLineEval parseL l ≠ .fail := by
    rw [← hjoin]
    exact hgoodL
  have h1 := runChunks_good (openaiLineEval parseO) cs1 hgoodO
  have h2 := runChunks_good (openaiLineEval parseO) cs2 hgoodO2
  have h3 := runChunks_good (ollamaLineEval parseL) cs1 hgoodL
  have h4 := runChunks_good (ollamaLineEval parseL) cs2 hgoodL2
  refine ⟨?_, ?_, h1, h3⟩
  · rw [h1, h2, hjoin]
  · rw [h3, h4, hjoin]

/-- Witness for C2: the line body and its terminator delivered in
separate chunks produce the same single frame as the unsplit delivery. -/
theorem c2_split_invariance_witness :
    (["good".toList, "\n".toList] : List (List Char)).flatten =
      ([("good\n".toList)] : List (List Char)).flatten ∧
    (∀ l ∈ completeLines (["good".toList, "\n".toList] : List (List Char)).flatten,
      openaiLineEval toyParse l ≠ .fail) ∧
    (runChunks (openaiLineEval toyParse) ["good".toList, "\n".toList]).frames =
      (runChunks (openaiLineEval toyParse) [("good\n".toList)]).frames ∧
    (runChunks (openaiLineEval toyParse) ["good".toList, "\n".toList]).frames =
      (completeLines (["good".toList, "\n".toList] : List (List Char)).flatten).filterMap
        (emitOf (openaiLineEval toyParse)) :=
  ⟨by decide, by decide,
    (c2_split_invariance toyParse toyParse ["good".toList, "\n".toList]
      [("good\n".toList)] (by decide) (by decide) (by decide)).1,
    (c2_split_invariance toyParse toyParse ["good".toList, "\n".toList]
      [("good\n".toList)] (by decide) (by decide) (by decide)).2.2.1⟩

/-- Claim C4 counterexample: with the single delivery holding a malformed
line followed by a well-formed complete line, the stream session ends
with no frame for the well-formed line — the exception thrown by the
malformed line escapes the drain loop, deferring the rest of the buffer,
and the stream ends before another delivery processes it. -/
theorem c4_malformed_counterexample :
    openaiLineEval toyParse ("good".toList) = .emit (.chunk none none "G" none) ∧
    (sessionOpenai toyParse [("bad\ngood\n".toList)]).writes =
      [Frame.finalChunk, Frame.sentinel] := by
  exact ⟨by decide, by decide⟩

/-- Claim C4 (amended): a malformed line never aborts the surrounding
stream — frames already written are unaffected and later deliveries only
append frames — and complete lines deferred behind a malformed line in
the same delivery are processed at the next delivery; but they are
dropped when the stream ends with no further delivery. -/
theorem c4_malformed_amended (ev : List Char → LineRes) (cs more : List (List Char)) :
    (∃ t, (runChunks ev (cs ++ more)).frames = (runChunks ev cs).frames ++ t) ∧
    (runChunks (openaiLineEval toyParse) [("bad\ngood\n".toList), ("\n".toList)]).frames =
      [Frame.chunk none none "G" none] := by
  constructor
  · rw [runChunks, runChunks, List.foldl_append]
    exact foldl_frames_mono ev more (List.foldl (feedChunk ev) ⟨[], []⟩ cs)
  · decide

/-- Claim C5: on upstream end-of-stream each surface emits exactly one
terminal frame — `done:true` with `done_reason:"stop"` on the local
runner, a `finish_reason:"stop"` chunk followed by the closing sentinel
on the OpenAI surface — with fabricated timing/usage fields, and then
ends the outbound connection. -/
theorem c5_terminal_frames (parseO parseL : List Char → Option Delta)
    (cs : List (List Char)) (model : String) (td ld pec ped ec ed : Nat) :
    (sessionOpenai parseO cs).writes.countP isOTerminal = 1 ∧
    (sessionOpenai parseO cs).writes =
      (runChunks (openaiLineEval parseO) cs).frames ++ [Frame.finalChunk, Frame.sentinel] ∧
    (sessionOpenai parseO cs).ended = true ∧
    (sessionOllama parseL cs).writes.countP isLTerminal = 1 ∧
    (sessionOllama parseL cs).writes =
      (runChunks (ollamaLineEval parseL) cs).frames ++ [Frame.localFinal] ∧
    (sessionOllama parseL cs).ended = true ∧
    mkOpenAIFinal.finish_reason = "stop" ∧
    (mkOllamaFinal model td ld pec ped ec ed).done = true ∧
    (mkOllamaFinal model td ld pec ped ec ed).done_reason = "stop" := by
  have ho : (runChunks (openaiLineEval parseO) cs).frames.countP isOTerminal = 0 := by
    rw [List.countP_eq_zero]
    intro f hf
    obtain ⟨l, hl⟩ := runChunks_frames_mem (openaiLineEval parseO) cs f hf
    simp [openai_emit_not_terminal parseO l f hl]
  have hl : (runChunks (ollamaLineEval parseL) cs).frames.countP isLTerminal = 0 := by
    rw [List.countP_eq_zero]
    intro f hf
    obtain ⟨l, hl2⟩ := runChunks_frames_mem (ollamaLineEval parseL) cs f hf
    simp [ollama_emit_not_terminal parseL l f hl2]
  refine ⟨?_, rfl, rfl, ?_, rfl, rfl, rfl, rfl, rfl⟩
  · rw [sessionOpenai]
    simp only [List.countP_append, ho]
    decide
  · rw [sessionOllama]
    simp only [List.countP_append, hl]
    decide

/-- Claim C7: under the content-generation upstream style every message
is remapped to an entry whose role coerces `system` to `user` and whose
single text part is the content itself for strings and its serialization
otherwise; and the caller's stream flag is ignored — the payload is
independent of it and the style downgrades any requested stream to a
synchronous call. -/
theorem c7_gemini_normalizer (stringify : String → String) (messages : List InMsg)
    (s1 s2 : Bool) (mt : Option Nat) :
    geminiChatRequest stringify messages s1 mt = geminiChatRequest stringify messages s2 mt ∧
    (geminiChatRequest stringify messages s1 mt).contents =
      messages.map (geminiContentOf stringify) ∧
    (∀ m : InMsg, (geminiContentOf stringify m).role =
        (if m.role = "system" then "user" else m.role) ∧
      (geminiContentOf stringify m).parts = [⟨contentText stringify m.content⟩]) ∧
    (∀ s : String, contentText stringify (.str s) = s) ∧
    (∀ v : String, contentText stringify (.structured v) = stringify v) ∧
    (∀ b : Bool, wantsStream b "gemini" = false) ∧
    (∀ b : Bool, wantsStream b
        (getApiStyle "https://generativelanguage.googleapis.com/v1beta") = false) := by
  refine ⟨rfl, rfl, fun m => ⟨rfl, rfl⟩, fun s => rfl, fun v => rfl, fun b => ?_, fun b => ?_⟩
  · simp [wantsStream]
  · have hg : getApiStyle "https://generativelanguage.googleapis.com/v1beta" = "gemini" := by
      decide
    rw [hg]
    simp [wantsStream]

/-- Claim C8 counterexample: a request carrying both fields, with `model`
present but equal to the empty string, is rejected with 400 rather than
forwarded upstream — presence alone does not suffice. -/
theorem c8_embeddings_counterexample :
    v1Embeddings (some "") (some (EmbedInput.str "x")) =
      EmbedResult.badRequest 400 "invalid_request_error" := by
  decide

/-- Claim C8 (amended): a `model` or `input` that is absent or present
but falsy (the empty string) yields 400 with the structured
`invalid_request_error` type and no upstream call; when both are present
and truthy (non-empty string, or any array for input), the upstream
embeddings call is made with both forwarded. -/
theorem c8_embeddings_amended (model : Option String) (input : Option EmbedInput) :
    ((strTruthy model = false ∨ inputTruthy input = false) →
      v1Embeddings model input = .badRequest 400 "invalid_request_error") ∧
    (strTruthy model = true → inputTruthy input = true →
      ∃ m i, model = some m ∧ input = some i ∧
        v1Embeddings model input = .upstream m i) := by
  constructor
  · intro h
    rcases h with h | h
    · simp [v1Embeddings, h]
    · cases hm : strTruthy model with
      | false => simp [v1Embeddings, hm]
      | true => simp [v1Embeddings, hm, h]
  · intro hm hi
    rcases model with _ | m
    · simp [strTruthy] at hm
    · rcases input with _ | i
      · simp [inputTruthy] at hi
      · refine ⟨m, i, rfl, rfl, ?_⟩
        have hm2 : ¬(m = "") := by
          intro hcon
          rw [hcon] at hm
          simp [strTruthy] at hm
        simp [v1Embeddings, strTruthy, hm2, hi, jsOrStr]

/-- Witness for C8 (amended): an absent model, a present-but-empty
model, and a present-but-empty input are each rejected; a non-empty
model with non-empty input reaches the upstream call. -/
theorem c8_embeddings_amended_witness :
    v1Embeddings none (some (EmbedInput.str "x")) =
      .badRequest 400 "invalid_request_error" ∧
    strTruthy (some "") = false ∧
    v1Embeddings (some "") (some (EmbedInput.str "x")) =
      .badRequest 400 "invalid_request_error" ∧
    inputTruthy (some (EmbedInput.str "")) = false ∧
    v1Embeddings (some "nomic") (some (EmbedInput.str "")) =
      .badRequest 400 "invalid_request_error" ∧
    ∃ m i, (some "nomic" : Option String) = some m ∧
      (some (EmbedInput.str "x") : Option EmbedInput) = some i ∧
      v1Embeddings (some "nomic") (some (EmbedInput.str "x")) = .upstream m i :=
  ⟨(c8_embeddings_amended none (some (EmbedInput.str "x"))).1 (Or.inl (by decide)),
    by decide,
    (c8_embeddings_amended (some "") (some (EmbedInput.str "x"))).1 (Or.inl (by decide)),
    by decide,
    (c8_embeddings_amended (some "nomic") (some (EmbedInput.str ""))).1 (Or.inr (by decide)),
    (c8_embeddings_amended (some "nomic") (some (EmbedInput.str "x"))).2
      (by decide) (by decide)⟩

/-- Claim C10: the local-runner embedding handlers substitute the literal
default before validation, so the missing-model rejection is unreachable
for every request, and a request without `model` but with embeddable text
proceeds upstream with the default model on both handlers. -/
theorem c10_local_default (model : Option String) (prompt input : Option EmbedInput) :
    apiEmbeddings model prompt input ≠ LocalEmbedResult.badRequest "model" ∧
    (inputTruthy (jsOrInput input prompt) = true →
      ∃ t, jsOrInput input prompt = some t ∧
        apiEmbeddings none prompt input = .upstream "all-minilm" t ∧
        apiEmbed none prompt input = .upstream "all-minilm" t) := by
  have hm : jsOrStr model "all-minilm" ≠ "" := by
    rcases model with _ | s
    · simp [jsOrStr]
    · by_cases hs : s = "" <;> simp [jsOrStr, hs]
  constructor
  · simp only [apiEmbeddings, if_neg hm]
    split
    · simp
    · simp
  · intro htruthy
    rcases htext : jsOrInput input prompt with _ | t
    · rw [htext] at htruthy
      simp [inputTruthy] at htruthy
    · rw [htext] at htruthy
      refine ⟨t, rfl, ?_, ?_⟩
      · simp [apiEmbeddings, jsOrStr, htext, htruthy]
      · simp [apiEmbed, jsOrStr, htext, htruthy]

/-- Witness for C10: a request with only an input text proceeds upstream
with the default model on both local-runner handlers. -/
theorem c10_local_default_witness :
    inputTruthy (jsOrInput (some (EmbedInput.str "hello")) none) = true ∧
    ∃ t, jsOrInput (some (EmbedInput.str "hello")) none = some t ∧
      apiEmbeddings none none (some (EmbedInput.str "hello")) = .upstream "all-minilm" t ∧
      apiEmbed none none (some (EmbedInput.str "hello")) = .upstream "all-minilm" t :=
  ⟨by decide, (c10_local_default none none (some (EmbedInput.str "hello"))).2 (by decide)⟩

/-- Every value below 16 renders as a lowercase hexadecimal digit. -/
theorem hexDigit_isHex : ∀ n, n < 16 → isHexChar (hexDigit n) = true := by
  decide

/-- Field-level properties of one synthesized catalog descriptor, given
draws in the unit interval. -/
theorem createModelObject_spec (rq : Nat → ℚ) (now : JsDate) (name : String)
    (h : ∀ j, 0 ≤ rq j ∧ rq j < 1) :
    (100000000 ≤ (createModelObject rq now name).size ∧
      (createModelObject rq now name).size < 600000000) ∧
    (createModelObject rq now name).digest.length = 64 ∧
    (∀ c ∈ (createModelObject rq now name).digest, isHexChar c = true) ∧
    (createModelObject rq now name).modified_at = ⟨now.year + 1, now.sub⟩ ∧
    ((createModelObject rq now name).details.quantization_level = "Q4_K_M" ∨
      (createModelObject rq now name).details.quantization_level = "F16") := by
  have hsize : (createModelObject rq now name).size = ⌊rq 64 * 500000000⌋ + 100000000 := rfl
  have hdigest : (createModelObject rq now name).digest =
      (List.range 64).map (fun i => hexDigit (⌊rq i * 16⌋).toNat) := rfl
  have hquant : (createModelObject rq now name).details.quantization_level =
      (if rq 65 > 1 / 2 then "Q4_K_M" else "F16") := rfl
  refine ⟨?_, ?_, ?_, rfl, ?_⟩
  · have h64 := h 64
    have h0 : 0 ≤ ⌊rq 64 * (500000000 : ℚ)⌋ :=
      Int.floor_nonneg.mpr (mul_nonneg h64.1 (by norm_num))
    have h1 : ⌊rq 64 * (500000000 : ℚ)⌋ < 500000000 := by
      rw [Int.floor_lt]
      have hlt := mul_lt_mul_of_pos_right h64.2 (show (0 : ℚ) < 500000000 by norm_num)
      rw [one_mul] at hlt
      push_cast
      exact hlt
    rw [hsize]
    omega
  · rw [hdigest]
    simp
  · intro c hc
    rw [hdigest] at hc
    simp only [List.mem_map, List.mem_range] at hc
    obtain ⟨i, -, rfl⟩ := hc
    have hi := h i
    have h0 : 0 ≤ ⌊rq i * (16 : ℚ)⌋ :=
      Int.floor_nonneg.mpr (mul_nonneg hi.1 (by norm_num))
    have h1 : ⌊rq i * (16 : ℚ)⌋ < 16 := by
      rw [Int.floor_lt]
      have hlt := mul_lt_mul_of_pos_right hi.2 (show (0 : ℚ) < 16 by norm_num)
      rw [one_mul] at hlt
      push_cast
      exact hlt
    exact hexDigit_isHex _ (by omega)
  · rw [hquant]
    by_cases hq : rq 65 > 1 / 2
    · left
      rw [if_pos hq]
    · right
      rw [if_neg hq]

/-- Claim C9: every catalog read synthesizes each descriptor afresh from
that read's own draws and instant — nothing is cached — and each
descriptor's size lies in the half-open hundred-to-six-hundred-million
range, its digest is 64 lowercase hexadecimal characters, its
modification instant is the read's instant advanced one year, and its
quantization level is one of the two fixed levels. -/
theorem c9_model_descriptor (supported : List String) (r : Nat → Nat → ℚ)
    (now : JsDate) (hr : ∀ i j, 0 ≤ r i j ∧ r i j < 1) :
    getModelList supported r now =
      supported.enum.map (fun p => createModelObject (r p.1) now p.2) ∧
    ∀ m ∈ getModelList supported r now,
      (100000000 ≤ m.size ∧ m.size < 600000000) ∧
      m.digest.length = 64 ∧
      (∀ c ∈ m.digest, isHexChar c = true) ∧
      m.modified_at = ⟨now.year + 1, now.sub⟩ ∧
      (m.details.quantization_level = "Q4_K_M" ∨
        m.details.quantization_level = "F16") := by
  refine ⟨rfl, ?_⟩
  intro m hm
  rw [getModelList] at hm
  simp only [List.mem_map] at hm
  obtain ⟨p, -, rfl⟩ := hm
  exact createModelObject_spec (r p.1) now p.2 (fun j => hr p.1 j)

/-- Witness for C9: a one-model catalog read with all draws zero. -/
theorem c9_model_descriptor_witness :
    (∀ i j, 0 ≤ zeroDraws i j ∧ zeroDraws i j < 1) ∧
    ∀ m ∈ getModelList ["llama:7b"] zeroDraws ⟨2026, 5⟩,
      (100000000 ≤ m.size ∧ m.size < 600000000) ∧
      m.digest.length = 64 ∧
      (∀ c ∈ m.digest, isHexChar c = true) ∧
      m.modified_at = ⟨2026 + 1, 5⟩ ∧
      (m.details.quantization_level = "Q4_K_M" ∨
        m.details.quantization_level = "F16") :=
  ⟨fun _ _ => ⟨le_refl 0, one_pos⟩,
    (c9_model_descriptor ["llama:7b"] zeroDraws ⟨2026, 5⟩
      (fun _ _ => ⟨le_refl 0, one_pos⟩)).2⟩

end OllamaBridge
